import Mathlib

/-!
# Verification of the whiteboard backend (Backend/main.py, Backend/models.py)

Shallow embedding of the FastAPI backend of the ai-whiteboard project.
The database session is modelled as an explicit in-memory state `DB`;
each HTTP endpoint of `main.py` becomes a pure function from a request
payload and a `DB` to a result and a new `DB`.

`main.py` registers some routes twice (e.g. `POST /save_diagram` appears
at lines 79 and 163); Starlette matches routes in registration order, so
the first definition of each path is the operative one and is the one
embedded here.

Python truthiness (`if not username`, `if diagram_id:`) is modelled
explicitly: a missing key, an empty string and the integer 0 are falsy.
-/

set_option autoImplicit false

namespace Whiteboard

/-- A row of the `users` table as `main.py` uses it
(`User(username=..., hashed_password=...)`). -/
structure User where
  id : Nat
  username : String
  hashed_password : String
  deriving Repr, DecidableEq

/-- A row of the `diagrams` table as `main.py` uses it
(`Diagram(content=..., owner_id=...)`; `models.py` line 22-27 declares the
columns `id`, `owner`, `content` — in particular there is no `title`
column anywhere). -/
structure Diagram where
  id : Nat
  owner_id : Nat
  content : String
  deriving Repr, DecidableEq

/-- The database state: the two tables plus the autoincrement counters
(SQLite integer primary keys start at 1). -/
structure DB where
  users : List User
  diagrams : List Diagram
  nextUserId : Nat
  nextDiagramId : Nat
  deriving Repr, DecidableEq

/-- Result of an endpoint call: the JSON value the handler returns, or an
`HTTPException(status_code, detail)`. -/
inductive ApiResult (α : Type) where
  | ok : α → ApiResult α
  | error : Nat → String → ApiResult α
  deriving Repr, DecidableEq

/-- The store queries a handler can issue through the SQLAlchemy session,
recorded so that "no store query is issued" is statable. -/
inductive Query where
  | userByName : String → Query
  | diagramByIdOwner : Nat → Nat → Query
  | diagramById : Nat → Query
  deriving Repr, DecidableEq

/-- Python truthiness of an optional string: `None` and `""` are falsy. -/
def strTruthy : Option String → Bool
  | none => false
  | some s => s ≠ ""

/-- Python truthiness of an optional integer: `None` and `0` are falsy. -/
def natTruthy : Option Nat → Bool
  | none => false
  | some n => n ≠ 0

/-- `db.query(User).filter(User.username == username).first()`. -/
def findUser (db : DB) (username : String) : Option User :=
  db.users.find? (fun u => u.username == username)

/-- `db.query(Diagram).filter(Diagram.id == i, Diagram.owner_id == o).first()`. -/
def findDiagramByIdOwner (db : DB) (i o : Nat) : Option Diagram :=
  db.diagrams.find? (fun d => d.id == i && d.owner_id == o)

/-- `db.query(Diagram).filter(Diagram.id == i).first()`. -/
def findDiagramById (db : DB) (i : Nat) : Option Diagram :=
  db.diagrams.find? (fun d => d.id == i)

/-- Mutating the single ORM row object returned by `.first()` and
committing: only the first row satisfying the filter is rewritten. -/
def updateFirst {α : Type} (p : α → Bool) (f : α → α) : List α → List α
  | [] => []
  | x :: xs => if p x then f x :: xs else x :: updateFirst p f xs

/-- `db.delete(row)` for the single row returned by `.first()`. -/
def removeFirst {α : Type} (p : α → Bool) : List α → List α
  | [] => []
  | x :: xs => if p x then xs else x :: removeFirst p xs

/-- `row.content = content; db.commit()`: rewrite the content of the
first row satisfying the filter. -/
def setContent (p : Diagram → Bool) (c : String) (l : List Diagram) : List Diagram :=
  updateFirst p (fun d => { d with content := c }) l

/-- Stand-in for `pwd_context.hash` (passlib bcrypt, an external
collaborator; no claim depends on its value). -/
def pwd_hash (password : String) : String :=
  String.append "$2b$12$" password

/-- The JSON body of `POST /register` and `POST /login`:
`{ "username": ..., "password": ... }`, each key possibly absent. -/
structure AuthPayload where
  username : Option String
  password : Option String
  deriving Repr, DecidableEq

/-- The JSON body of `POST /save_diagram`:
`{ "username": ..., "content": ..., "id": ... }`, each key possibly absent. -/
structure SavePayload where
  username : Option String
  content : Option String
  id : Option Nat
  deriving Repr, DecidableEq

/-- The JSON body of `POST /update_diagram`: `{ "id": ..., "content": ... }`. -/
structure UpdatePayload where
  id : Option Nat
  content : Option String
  deriving Repr, DecidableEq

/-- `POST /register` (main.py lines 40-58). -/
def register (db : DB) (p : AuthPayload) : ApiResult (String × String) × DB :=
  if !(strTruthy p.username && strTruthy p.password) then
    (.error 400 "Username and password required", db)
  else
    let username := p.username.getD ""
    let password := p.password.getD ""
    match findUser db username with
    | some _ => (.error 400 "User already exists", db)
    | none =>
        let newUser : User :=
          { id := db.nextUserId, username := username,
            hashed_password := pwd_hash password }
        (.ok ("User registered", username),
         { db with users := db.users ++ [newUser],
                   nextUserId := db.nextUserId + 1 })

/-- `POST /save_diagram` (main.py lines 79-104, the operative registration
of this path). Returns the handler result, the new database state and the
list of store queries the handler issued. -/
def save_diagram (db : DB) (p : SavePayload) :
    ApiResult (String × Nat) × DB × List Query :=
  if !(strTruthy p.username && strTruthy p.content) then
    (.error 400 "Username and content required", db, [])
  else
    let username := p.username.getD ""
    let content := p.content.getD ""
    match findUser db username with
    | none => (.error 404 "User not found", db, [.userByName username])
    | some user =>
        if natTruthy p.id then
          let i := p.id.getD 0
          match findDiagramByIdOwner db i user.id with
          | none =>
              (.error 404 "Diagram not found", db,
               [.userByName username, .diagramByIdOwner i user.id])
          | some diagram =>
              let diagrams' :=
                updateFirst (fun d => d.id == i && d.owner_id == user.id)
                  (fun d => { d with content := content }) db.diagrams
              (.ok ("Diagram updated", diagram.id),
               { db with diagrams := diagrams' },
               [.userByName username, .diagramByIdOwner i user.id])
        else
          let newDiagram : Diagram :=
            { id := db.nextDiagramId, owner_id := user.id, content := content }
          (.ok ("Diagram saved", newDiagram.id),
           { db with diagrams := db.diagrams ++ [newDiagram],
                     nextDiagramId := db.nextDiagramId + 1 },
           [.userByName username])

/-- One element of the JSON array `GET /get_diagrams/{username}` returns:
a Python dict with an integer and a string value. -/
inductive Val where
  | i : Nat → Val
  | s : String → Val
  deriving Repr, DecidableEq

/-- A returned JSON object, as a key/value association list. -/
abbrev Record := List (String × Val)

/-- `GET /get_diagrams/{username}` (main.py lines 107-114):
`[{"id": d.id, "content": d.content} for d in diagrams]`. -/
def get_diagrams (db : DB) (username : String) : ApiResult (List Record) :=
  match findUser db username with
  | none => .error 404 "User not found"
  | some user =>
      .ok ((db.diagrams.filter (fun d => d.owner_id == user.id)).map
        (fun d => [("id", Val.i d.id), ("content", Val.s d.content)]))

/-- `DELETE /delete_diagram/{diagram_id}` (main.py lines 117-124, the
operative registration of this path). No ownership check. -/
def delete_diagram (db : DB) (diagram_id : Nat) : ApiResult String × DB :=
  match findDiagramById db diagram_id with
  | none => (.error 404 "Diagram not found", db)
  | some _ =>
      (.ok "Diagram deleted",
       { db with diagrams :=
           removeFirst (fun d => d.id == diagram_id) db.diagrams })

/-- `POST /update_diagram` (main.py lines 138-149). Filters by id only:
no owner is named in the payload and no ownership check is made. -/
def update_diagram (db : DB) (p : UpdatePayload) : ApiResult String × DB :=
  if !(natTruthy p.id && strTruthy p.content) then
    (.error 400 "id and content required", db)
  else
    let i := p.id.getD 0
    let content := p.content.getD ""
    match findDiagramById db i with
    | none => (.error 404 "Diagram not found", db)
    | some _ =>
        let diagrams' :=
          updateFirst (fun d => d.id == i)
            (fun d => { d with content := content }) db.diagrams
        (.ok "Updated", { db with diagrams := diagrams' })

/-- Well-formedness of a database state, maintained by SQLAlchemy /
SQLite: primary keys are positive and unique, the autoincrement counters
exceed every existing key, and usernames are unique. -/
structure Wf (db : DB) : Prop where
  diagramIdsPos : ∀ d ∈ db.diagrams, 1 ≤ d.id
  diagramIdsLt : ∀ d ∈ db.diagrams, d.id < db.nextDiagramId
  diagramIdsNodup : (db.diagrams.map Diagram.id).Nodup
  nextDiagramPos : 1 ≤ db.nextDiagramId
  usernamesNodup : (db.users.map User.username).Nodup

/-- Modelled from the spec: the repository's websocket broadcast code
(Session Registry and Broadcast Relay of spec sections 4.1-4.2) is not
under `src/`; only the HTTP backend is. The registry maps a session key
to its participant handles; `participants_of` looks the key up. -/
def participants_of (reg : List (String × List String)) (key : String) :
    List String :=
  ((reg.find? (fun e => e.1 == key)).map Prod.snd).getD []

/-- Modelled from the spec: `relay(session_key, sender_handle, message)`
"delivers one participant's update message to every other participant of
the same session, excluding the sender (no echo)"; the fan-out targets
are the session's participants other than the sender. -/
def relayRecipients (reg : List (String × List String))
    (key sender : String) : List String :=
  (participants_of reg key).filter (fun h => h ≠ sender)

/-- A fixed concrete database used to evaluate the endpoints: users
alice (id 1) and bob (id 2), one diagram (id 1) owned by alice. -/
def exDB : DB :=
  { users := [⟨1, "alice", "h1"⟩, ⟨2, "bob", "h2"⟩],
    diagrams := [⟨1, 1, "A"⟩],
    nextUserId := 3,
    nextDiagramId := 2 }

/-- A second concrete database: carol (id 3) owns no diagrams yet. -/
def exDB2 : DB :=
  { users := [⟨1, "alice", "h1"⟩, ⟨2, "bob", "h2"⟩, ⟨3, "carol", "h3"⟩],
    diagrams := [⟨1, 1, "A"⟩],
    nextUserId := 4,
    nextDiagramId := 2 }

/-- The diagram table changed at exactly position `j` and nowhere else:
same number of rows, every position other than `j` holds literally the
same row as before, and the row at `j` is the old row with only its
content replaced by `c` (so its id and owner are unchanged). -/
def UpdatedOnlyAt (old new : List Diagram) (j : Nat) (c : String) : Prop :=
  new.length = old.length ∧
  new.getD j ⟨0, 0, ""⟩ = { old.getD j ⟨0, 0, ""⟩ with content := c } ∧
  ∀ k : Nat, k ≠ j → new.getD k ⟨0, 0, ""⟩ = old.getD k ⟨0, 0, ""⟩

section ListLemmas

variable {α : Type}

theorem length_updateFirst (p : α → Bool) (f : α → α) (l : List α) :
    (updateFirst p f l).length = l.length := by
  induction l with
  | nil => rfl
  | cons x xs ih =>
      simp only [updateFirst]
      split <;> simp [ih]

theorem updateFirst_getD (p : α → Bool) (f : α → α) (l : List α) (k : Nat)
    (x0 : α) :
    (updateFirst p f l).getD k x0 = l.getD k x0 ∨
      (updateFirst p f l).getD k x0 = f (l.getD k x0) := by
  induction l generalizing k with
  | nil => left; rfl
  | cons x xs ih =>
      simp only [updateFirst]
      by_cases h : p x
      · simp only [h, if_pos]
        cases k with
        | zero => right; rfl
        | succ k => left; rfl
      · simp only [h, if_neg, Bool.false_eq_true, not_false_iff]
        cases k with
        | zero => left; rfl
        | succ k => exact ih k

theorem updateFirst_spec (p : α → Bool) (f : α → α) (l : List α)
    {a : α} (x0 : α) (h : l.find? p = some a) :
    ∃ j, j < l.length ∧ l.getD j x0 = a ∧
      (updateFirst p f l).getD j x0 = f (l.getD j x0) ∧
      ∀ k, k ≠ j → (updateFirst p f l).getD k x0 = l.getD k x0 := by
  induction l with
  | nil => simp [List.find?] at h
  | cons x xs ih =>
      by_cases hx : p x = true
      · rw [List.find?_cons_of_pos _ hx] at h
        refine ⟨0, by simp, Option.some.inj h, ?_, ?_⟩
        · simp [updateFirst, hx]
        · intro k hk
          match k with
          | 0 => exact absurd rfl hk
          | Nat.succ m => simp [updateFirst, hx, List.getD_cons_succ]
      · rw [List.find?_cons_of_neg _ hx] at h
        obtain ⟨j, hj, hja, hjf, hother⟩ := ih h
        refine ⟨j + 1, by simpa using Nat.succ_lt_succ hj, ?_, ?_, ?_⟩
        · simpa [List.getD_cons_succ] using hja
        · simp only [updateFirst, hx, if_neg, Bool.false_eq_true, not_false_iff,
            List.getD_cons_succ]
          exact hjf
        · intro k hk
          match k with
          | 0 => simp [updateFirst, hx]
          | Nat.succ m =>
              have hm : m ≠ j := fun he => hk (by rw [he])
              simp only [updateFirst, hx, if_neg, Bool.false_eq_true,
                not_false_iff, List.getD_cons_succ]
              exact hother m hm

theorem mem_updateFirst_of_find? {p : α → Bool} (f : α → α) {l : List α}
    {a : α} (h : l.find? p = some a) : f a ∈ updateFirst p f l := by
  induction l with
  | nil => simp [List.find?] at h
  | cons x xs ih =>
      by_cases hx : p x
      · have : x = a := by
          have := h
          rw [List.find?_cons_of_pos _ hx] at this
          exact Option.some.inj this
        subst this
        simp [updateFirst, hx]
      · rw [List.find?_cons_of_neg _ hx] at h
        simp only [updateFirst, hx, if_neg, Bool.false_eq_true, not_false_iff]
        exact List.mem_cons_of_mem _ (ih h)

theorem find?_append_none (p : α → Bool) {l₁ : List α} (l₂ : List α)
    (h : ∀ x ∈ l₁, ¬ p x) : (l₁ ++ l₂).find? p = l₂.find? p := by
  induction l₁ with
  | nil => rfl
  | cons x xs ih =>
      have hx : ¬ p x = true := h x (List.mem_cons_self x xs)
      rw [List.cons_append, List.find?_cons_of_neg _ hx]
      exact ih fun y hy => h y (List.mem_cons_of_mem _ hy)

theorem updateFirst_append_none (p : α → Bool) (f : α → α) {l₁ : List α}
    (l₂ : List α) (h : ∀ x ∈ l₁, ¬ p x) :
    updateFirst p f (l₁ ++ l₂) = l₁ ++ updateFirst p f l₂ := by
  induction l₁ with
  | nil => rfl
  | cons x xs ih =>
      have hx : ¬ p x = true := h x (List.mem_cons_self x xs)
      simp only [List.cons_append, updateFirst, hx, if_neg, Bool.false_eq_true,
        not_false_iff]
      exact congrArg (List.cons x) (ih fun y hy => h y (List.mem_cons_of_mem _ hy))

theorem removeFirst_length {p : α → Bool} {l : List α} {a : α}
    (h : l.find? p = some a) : (removeFirst p l).length + 1 = l.length := by
  induction l with
  | nil => simp [List.find?] at h
  | cons x xs ih =>
      by_cases hx : p x
      · simp [removeFirst, hx]
      · rw [List.find?_cons_of_neg _ hx] at h
        simp only [removeFirst, hx, if_neg, Bool.false_eq_true, not_false_iff,
          List.length_cons]
        rw [← ih h]

theorem mem_removeFirst {p : α → Bool} {l : List α} {x : α}
    (hx : x ∈ l) (hnp : ¬ p x) : x ∈ removeFirst p l := by
  induction l with
  | nil => simp at hx
  | cons y ys ih =>
      by_cases hy : p y
      · simp only [removeFirst, hy, if_pos]
        rcases List.mem_cons.mp hx with h | h
        · subst h; exact absurd hy hnp
        · exact h
      · simp only [removeFirst, hy, if_neg, Bool.false_eq_true, not_false_iff]
        rcases List.mem_cons.mp hx with h | h
        · subst h; exact List.mem_cons_self _ _
        · exact List.mem_cons_of_mem _ (ih h)

end ListLemmas

theorem removeFirst_no_match {l : List Diagram} {i : Nat}
    (hnd : (l.map Diagram.id).Nodup) {d : Diagram} (hmem : d ∈ l)
    (hdi : d.id = i) :
    ∀ e ∈ removeFirst (fun x => x.id == i) l, e.id ≠ i := by
  induction l with
  | nil => simp at hmem
  | cons x xs ih =>
      simp only [List.map_cons, List.nodup_cons] at hnd
      by_cases hx : (x.id == i) = true
      · have hxi : x.id = i := by simpa using hx
        simp only [removeFirst, hx, if_pos]
        intro e he hei
        exact hnd.1 (List.mem_map.mpr ⟨e, he, by rw [hei, hxi]⟩)
      · have hxi : x.id ≠ i := by simpa using hx
        have hdxs : d ∈ xs := by
          rcases List.mem_cons.mp hmem with h | h
          · exact (hxi (by rw [← h]; exact hdi)).elim
          · exact h
        simp only [removeFirst, hx, if_neg, Bool.false_eq_true, not_false_iff]
        intro e he
        rcases List.mem_cons.mp he with h2 | h2
        · subst h2; exact hxi
        · exact ih hnd.2 hdxs e h2

/-- If a diagram with id `i` exists but belongs to a different owner, the
owner-filtered lookup comes back empty (ids are unique). -/
theorem findDiagramByIdOwner_eq_none {db : DB} (hw : Wf db) {d : Diagram}
    {i o : Nat} (hd : d ∈ db.diagrams) (hdi : d.id = i)
    (hown : d.owner_id ≠ o) : findDiagramByIdOwner db i o = none := by
  unfold findDiagramByIdOwner
  rw [List.find?_eq_none]
  intro x hx hpx
  simp only [Bool.and_eq_true, beq_iff_eq] at hpx
  have hxd : x = d :=
    List.inj_on_of_nodup_map hw.diagramIdsNodup hx hd (by rw [hpx.1, hdi])
  exact hown (by rw [← hxd]; exact hpx.2)

theorem save_diagram_create_eq (db : DB) (uname c : String) (oid : Option Nat)
    (u : User) (hn : uname ≠ "") (hc : c ≠ "") (hoid : natTruthy oid = false)
    (hu : findUser db uname = some u) :
    save_diagram db ⟨some uname, some c, oid⟩ =
      (.ok ("Diagram saved", db.nextDiagramId),
       { db with diagrams := db.diagrams ++ [⟨db.nextDiagramId, u.id, c⟩],
                 nextDiagramId := db.nextDiagramId + 1 },
       [.userByName uname]) := by
  unfold save_diagram
  simp [strTruthy, hn, hc, hu, hoid]

theorem save_diagram_update_eq (db : DB) (uname c : String) (i : Nat)
    (u : User) (d : Diagram) (hn : uname ≠ "") (hc : c ≠ "") (hi : i ≠ 0)
    (hu : findUser db uname = some u)
    (hd : findDiagramByIdOwner db i u.id = some d) :
    save_diagram db ⟨some uname, some c, some i⟩ =
      (.ok ("Diagram updated", d.id),
       { db with diagrams := setContent (fun x => x.id == i && x.owner_id == u.id) c db.diagrams },
       [.userByName uname, .diagramByIdOwner i u.id]) := by
  unfold save_diagram setContent
  simp [strTruthy, natTruthy, hn, hc, hi, hu, hd]

theorem save_diagram_notfound_eq (db : DB) (uname c : String) (i : Nat)
    (u : User) (hn : uname ≠ "") (hc : c ≠ "") (hi : i ≠ 0)
    (hu : findUser db uname = some u)
    (hd : findDiagramByIdOwner db i u.id = none) :
    save_diagram db ⟨some uname, some c, some i⟩ =
      (.error 404 "Diagram not found", db,
       [.userByName uname, .diagramByIdOwner i u.id]) := by
  unfold save_diagram
  simp [strTruthy, natTruthy, hn, hc, hi, hu, hd]

theorem update_diagram_some_eq (db : DB) (c : String) (i : Nat) (d : Diagram)
    (hc : c ≠ "") (hi : i ≠ 0) (hd : findDiagramById db i = some d) :
    update_diagram db ⟨some i, some c⟩ =
      (.ok "Updated",
       { db with diagrams := setContent (fun x => x.id == i) c db.diagrams }) := by
  unfold update_diagram setContent
  simp [strTruthy, natTruthy, hc, hi, hd]

theorem delete_diagram_some_eq (db : DB) (i : Nat) (d : Diagram)
    (hd : findDiagramById db i = some d) :
    delete_diagram db i =
      (.ok "Diagram deleted",
       { db with diagrams := removeFirst (fun x => x.id == i) db.diagrams }) := by
  unfold delete_diagram
  simp [hd]

/-- The fixed database is well formed. -/
theorem exDB_wf : Wf exDB := by
  refine ⟨?_, ?_, ?_, ?_, ?_⟩ <;> decide

/-- The second fixed database is well formed. -/
theorem exDB2_wf : Wf exDB2 := by
  refine ⟨?_, ?_, ?_, ?_, ?_⟩ <;> decide

/-- C1: the claim asserts that a save naming an id that exists but is owned
by someone else creates a new diagram row with a fresh id. On the code it
does not: `save_diagram` raises `HTTPException(404, "Diagram not found")`
and leaves the store untouched. Concretely, bob saving with id 1 (owned by
alice) gets a 404 and no row is created. -/
theorem C1_counterexample :
    (save_diagram exDB ⟨some "bob", some "Z", some 1⟩).1 = ApiResult.error 404 "Diagram not found" ∧
    (save_diagram exDB ⟨some "bob", some "Z", some 1⟩).2.1 = exDB ∧
    (save_diagram exDB ⟨some "bob", some "Z", some 1⟩).2.1.diagrams.length = exDB.diagrams.length := by
  exact ⟨rfl, rfl, rfl⟩

/-- C1 (amended): for every save request with a valid owner and content,
if an id is present (and nonzero) and a diagram with that id is owned by
the requesting owner, the diagram's content is replaced in place (no row
added); if the id is present but unknown or owned by someone else, the
request fails with NotFound and nothing is created; omitting the id
always creates a new row with a fresh id rather than erroring. -/
theorem C1_upsert (db : DB) (uname c : String) (oid : Option Nat) (u : User)
    (hw : Wf db) (hn : uname ≠ "") (hc : c ≠ "")
    (hu : findUser db uname = some u) :
    (∀ d, natTruthy oid = true →
      findDiagramByIdOwner db (oid.getD 0) u.id = some d →
      (save_diagram db ⟨some uname, some c, oid⟩).1 = ApiResult.ok ("Diagram updated", d.id) ∧
      (save_diagram db ⟨some uname, some c, oid⟩).2.1.diagrams.length = db.diagrams.length ∧
      { d with content := c } ∈ (save_diagram db ⟨some uname, some c, oid⟩).2.1.diagrams) ∧
    (natTruthy oid = true →
      findDiagramByIdOwner db (oid.getD 0) u.id = none →
      (save_diagram db ⟨some uname, some c, oid⟩).1 = ApiResult.error 404 "Diagram not found" ∧
      (save_diagram db ⟨some uname, some c, oid⟩).2.1 = db) ∧
    (natTruthy oid = false →
      (save_diagram db ⟨some uname, some c, oid⟩).1 = ApiResult.ok ("Diagram saved", db.nextDiagramId) ∧
      (∀ d ∈ db.diagrams, d.id ≠ db.nextDiagramId) ∧
      (save_diagram db ⟨some uname, some c, oid⟩).2.1.diagrams = db.diagrams ++ [⟨db.nextDiagramId, u.id, c⟩]) := by
  refine ⟨?_, ?_, ?_⟩
  · intro d ht hd
    match oid, ht with
    | some i, ht =>
      have hi : i ≠ 0 := by simpa [natTruthy] using ht
      have hd' : findDiagramByIdOwner db i u.id = some d := by simpa using hd
      rw [save_diagram_update_eq db uname c i u d hn hc hi hu hd']
      refine ⟨rfl, length_updateFirst _ _ _, ?_⟩
      exact mem_updateFirst_of_find? (fun x => { x with content := c }) hd'
  · intro ht hd
    match oid, ht with
    | some i, ht =>
      have hi : i ≠ 0 := by simpa [natTruthy] using ht
      have hd' : findDiagramByIdOwner db i u.id = none := by simpa using hd
      rw [save_diagram_notfound_eq db uname c i u hn hc hi hu hd']
      exact ⟨rfl, rfl⟩
  · intro ht
    rw [save_diagram_create_eq db uname c oid u hn hc ht hu]
    refine ⟨rfl, ?_, rfl⟩
    intro d hd
    exact Nat.ne_of_lt (hw.diagramIdsLt d hd)

/-- C1 witness: alice updating her own diagram 1 with content "Y". -/
theorem C1_upsert_witness :
    (save_diagram exDB ⟨some "alice", some "Y", some 1⟩).1 = ApiResult.ok ("Diagram updated", 1) ∧
    (save_diagram exDB ⟨some "alice", some "Y", some 1⟩).2.1.diagrams.length = exDB.diagrams.length ∧
    (⟨1, 1, "Y"⟩ : Diagram) ∈ (save_diagram exDB ⟨some "alice", some "Y", some 1⟩).2.1.diagrams :=
  (C1_upsert exDB "alice" "Y" (some 1) ⟨1, "alice", "h1"⟩ exDB_wf
    (by decide) (by decide) rfl).1 ⟨1, 1, "A"⟩ rfl rfl

/-- C2: a save request naming an existing diagram id and an owner who does
not own that diagram fails with NotFound (404, "Diagram not found") and
leaves the database unchanged: a save can never take over or overwrite
another user's diagram. -/
theorem C2_ownership (db : DB) (uname c : String) (i : Nat) (u : User)
    (d : Diagram) (hw : Wf db) (hn : uname ≠ "") (hc : c ≠ "") (hi : i ≠ 0)
    (hu : findUser db uname = some u)
    (hd : d ∈ db.diagrams) (hdi : d.id = i) (hown : d.owner_id ≠ u.id) :
    (save_diagram db ⟨some uname, some c, some i⟩).1 = ApiResult.error 404 "Diagram not found" ∧
    (save_diagram db ⟨some uname, some c, some i⟩).2.1 = db := by
  have hnone := findDiagramByIdOwner_eq_none hw hd hdi hown
  rw [save_diagram_notfound_eq db uname c i u hn hc hi hu hnone]
  exact ⟨rfl, rfl⟩

/-- C2 witness: bob trying to overwrite alice's diagram 1. -/
theorem C2_ownership_witness :
    (save_diagram exDB ⟨some "bob", some "NEW", some 1⟩).1 = ApiResult.error 404 "Diagram not found" ∧
    (save_diagram exDB ⟨some "bob", some "NEW", some 1⟩).2.1 = exDB :=
  C2_ownership exDB "bob" "NEW" 1 ⟨2, "bob", "h2"⟩ ⟨1, 1, "A"⟩ exDB_wf
    (by decide) (by decide) (by decide) rfl (by decide) rfl (by decide)

/-- C3: deleting a nonexistent diagram id returns NotFound (not a success
status) and leaves the store unchanged; deleting an existing diagram
removes it regardless of who owns it (no ownership condition appears),
leaving every other diagram in place. -/
theorem C3_delete (db : DB) (i : Nat) (hw : Wf db) :
    (findDiagramById db i = none →
      delete_diagram db i = (ApiResult.error 404 "Diagram not found", db)) ∧
    (∀ d ∈ db.diagrams, d.id = i →
      (delete_diagram db i).1 = ApiResult.ok "Diagram deleted" ∧
      (∀ e ∈ (delete_diagram db i).2.diagrams, e.id ≠ i) ∧
      (∀ e ∈ db.diagrams, e.id ≠ i → e ∈ (delete_diagram db i).2.diagrams) ∧
      (delete_diagram db i).2.diagrams.length + 1 = db.diagrams.length) := by
  constructor
  · intro hnone
    simp [delete_diagram, hnone]
  · intro d hd hdi
    have hx : ∃ x, findDiagramById db i = some x := by
      have hs : (db.diagrams.find? (fun x => x.id == i)).isSome :=
        List.find?_isSome.mpr ⟨d, hd, by simp [hdi]⟩
      exact Option.isSome_iff_exists.mp hs
    obtain ⟨x, hx⟩ := hx
    rw [delete_diagram_some_eq db i x hx]
    refine ⟨rfl, ?_, ?_, ?_⟩
    · exact removeFirst_no_match hw.diagramIdsNodup hd hdi
    · intro e he hei
      exact mem_removeFirst he (by simp [hei])
    · exact removeFirst_length
        (show db.diagrams.find? (fun y => y.id == i) = some x from hx)

/-- C3 witness: deleting nonexistent id 42, then deleting existing id 1. -/
theorem C3_delete_witness :
    delete_diagram exDB 42 = (ApiResult.error 404 "Diagram not found", exDB) ∧
    ((delete_diagram exDB 1).1 = ApiResult.ok "Diagram deleted" ∧
      (∀ e ∈ (delete_diagram exDB 1).2.diagrams, e.id ≠ 1) ∧
      (∀ e ∈ exDB.diagrams, e.id ≠ 1 → e ∈ (delete_diagram exDB 1).2.diagrams) ∧
      (delete_diagram exDB 1).2.diagrams.length + 1 = exDB.diagrams.length) :=
  ⟨(C3_delete exDB 42 exDB_wf).1 rfl,
   (C3_delete exDB 1 exDB_wf).2 ⟨1, 1, "A"⟩ (by decide) rfl⟩

/-- C4: starting from a store with no diagrams for the given owner, saving
content c1 with no id and then saving content c2 under the returned id
leaves exactly one diagram row for that owner, whose content is c2. -/
theorem C4_save_then_update (db : DB) (uname c1 c2 : String) (u : User)
    (hw : Wf db) (hn : uname ≠ "") (h1 : c1 ≠ "") (h2 : c2 ≠ "")
    (hu : findUser db uname = some u)
    (hnone : ∀ d ∈ db.diagrams, d.owner_id ≠ u.id) :
    ∃ i,
      (save_diagram db ⟨some uname, some c1, none⟩).1 = ApiResult.ok ("Diagram saved", i) ∧
      (save_diagram (save_diagram db ⟨some uname, some c1, none⟩).2.1 ⟨some uname, some c2, some i⟩).1 = ApiResult.ok ("Diagram updated", i) ∧
      (save_diagram (save_diagram db ⟨some uname, some c1, none⟩).2.1 ⟨some uname, some c2, some i⟩).2.1.diagrams.filter (fun d => d.owner_id == u.id) = [⟨i, u.id, c2⟩] := by
  have hpre : ∀ x ∈ db.diagrams,
      ¬ ((x.id == db.nextDiagramId && x.owner_id == u.id) = true) := by
    intro x hx hp
    simp only [Bool.and_eq_true, beq_iff_eq] at hp
    exact hnone x hx hp.2
  have h1eq := save_diagram_create_eq db uname c1 none u hn h1 rfl hu
  have hstep : (save_diagram db ⟨some uname, some c1, none⟩).2.1 =
      { db with diagrams := db.diagrams ++ [⟨db.nextDiagramId, u.id, c1⟩],
                nextDiagramId := db.nextDiagramId + 1 } := by
    rw [h1eq]
  have hNne : db.nextDiagramId ≠ 0 := by
    have := hw.nextDiagramPos
    omega
  have hu1 : findUser { db with diagrams := db.diagrams ++ [⟨db.nextDiagramId, u.id, c1⟩], nextDiagramId := db.nextDiagramId + 1 } uname = some u := hu
  have hp1 : (((⟨db.nextDiagramId, u.id, c1⟩ : Diagram)).id == db.nextDiagramId && ((⟨db.nextDiagramId, u.id, c1⟩ : Diagram)).owner_id == u.id) = true := by
    simp
  have hfind : findDiagramByIdOwner { db with diagrams := db.diagrams ++ [⟨db.nextDiagramId, u.id, c1⟩], nextDiagramId := db.nextDiagramId + 1 } db.nextDiagramId u.id = some ⟨db.nextDiagramId, u.id, c1⟩ := by
    show (db.diagrams ++ [(⟨db.nextDiagramId, u.id, c1⟩ : Diagram)]).find? (fun x => x.id == db.nextDiagramId && x.owner_id == u.id) = some ⟨db.nextDiagramId, u.id, c1⟩
    rw [find?_append_none _ _ hpre]
    exact List.find?_cons_of_pos _ hp1
  have h2eq := save_diagram_update_eq { db with diagrams := db.diagrams ++ [⟨db.nextDiagramId, u.id, c1⟩], nextDiagramId := db.nextDiagramId + 1 } uname c2 db.nextDiagramId u ⟨db.nextDiagramId, u.id, c1⟩ hn h2 hNne hu1 hfind
  refine ⟨db.nextDiagramId, by rw [h1eq], ?_, ?_⟩
  · rw [hstep, h2eq]
  · rw [hstep, h2eq]
    show (setContent (fun x => x.id == db.nextDiagramId && x.owner_id == u.id) c2 (db.diagrams ++ [⟨db.nextDiagramId, u.id, c1⟩])).filter (fun d => d.owner_id == u.id) = [⟨db.nextDiagramId, u.id, c2⟩]
    unfold setContent
    rw [updateFirst_append_none _ _ _ hpre]
    have hsingle : updateFirst (fun x => x.id == db.nextDiagramId && x.owner_id == u.id) (fun x => { x with content := c2 }) [(⟨db.nextDiagramId, u.id, c1⟩ : Diagram)] = [⟨db.nextDiagramId, u.id, c2⟩] := by
      simp [updateFirst, hp1]
    rw [hsingle, List.filter_append]
    have hfilnil : db.diagrams.filter (fun d => d.owner_id == u.id) = [] := by
      rw [List.filter_eq_nil_iff]
      intro a ha hpa
      exact hnone a ha (by simpa using hpa)
    rw [hfilnil]
    simp

/-- C4 witness: carol (a fresh owner with no diagrams) saving "X" then
updating the returned id with "Y". -/
theorem C4_save_then_update_witness :
    ∃ i,
      (save_diagram exDB2 ⟨some "carol", some "X", none⟩).1 = ApiResult.ok ("Diagram saved", i) ∧
      (save_diagram (save_diagram exDB2 ⟨some "carol", some "X", none⟩).2.1 ⟨some "carol", some "Y", some i⟩).1 = ApiResult.ok ("Diagram updated", i) ∧
      (save_diagram (save_diagram exDB2 ⟨some "carol", some "X", none⟩).2.1 ⟨some "carol", some "Y", some i⟩).2.1.diagrams.filter (fun d => d.owner_id == 3) = [⟨i, 3, "Y"⟩] :=
  C4_save_then_update exDB2 "carol" "X" "Y" ⟨3, "carol", "h3"⟩ exDB2_wf
    (by decide) (by decide) (by decide) rfl (by decide)

/-- C5: a save request missing the username or the content (or carrying an
empty one, which Python truthiness treats the same) is rejected with the
400 validation error before touching storage: the database is unchanged
and the list of store queries issued is empty. -/
theorem C5_validation (db : DB) (p : SavePayload)
    (h : strTruthy p.username = false ∨ strTruthy p.content = false) :
    save_diagram db p = (ApiResult.error 400 "Username and content required", db, []) := by
  unfold save_diagram
  rcases h with h | h <;> simp [h]

/-- C5 witness: a request with a username but no content. -/
theorem C5_validation_witness :
    save_diagram exDB ⟨some "alice", none, none⟩ =
      (ApiResult.error 400 "Username and content required", exDB, []) :=
  C5_validation exDB ⟨some "alice", none, none⟩ (Or.inr rfl)

/-- C6: for an existing owner, the diagram listing contains exactly the
records of the diagrams whose owner is that owner: every returned record
comes from one of the owner's diagrams (so no other owner's diagram ever
appears), and every diagram of the owner appears. -/
theorem C6_list_owner (db : DB) (uname : String) (u : User) (l : List Record)
    (hu : findUser db uname = some u)
    (hl : get_diagrams db uname = ApiResult.ok l) :
    (∀ r ∈ l, ∃ d ∈ db.diagrams, d.owner_id = u.id ∧ r = [("id", Val.i d.id), ("content", Val.s d.content)]) ∧
    (∀ d ∈ db.diagrams, d.owner_id = u.id → [("id", Val.i d.id), ("content", Val.s d.content)] ∈ l) := by
  have hl' : l = (db.diagrams.filter (fun d => d.owner_id == u.id)).map (fun d => [("id", Val.i d.id), ("content", Val.s d.content)]) := by
    unfold get_diagrams at hl
    rw [hu] at hl
    exact (ApiResult.ok.inj hl).symm
  subst hl'
  constructor
  · intro r hr
    obtain ⟨d, hd, hdr⟩ := List.mem_map.mp hr
    obtain ⟨hdmem, hdown⟩ := List.mem_filter.mp hd
    exact ⟨d, hdmem, by simpa using hdown, hdr.symm⟩
  · intro d hd hown
    exact List.mem_map.mpr ⟨d, List.mem_filter.mpr ⟨hd, by simp [hown]⟩, rfl⟩

/-- C6 witness: listing alice's diagrams in the fixed database. -/
theorem C6_list_owner_witness :
    (∀ r ∈ [[("id", Val.i 1), ("content", Val.s "A")]], ∃ d ∈ exDB.diagrams, d.owner_id = 1 ∧ r = [("id", Val.i d.id), ("content", Val.s d.content)]) ∧
    (∀ d ∈ exDB.diagrams, d.owner_id = 1 → [("id", Val.i d.id), ("content", Val.s d.content)] ∈ [[("id", Val.i 1), ("content", Val.s "A")]]) :=
  C6_list_owner exDB "alice" ⟨1, "alice", "h1"⟩ [[("id", Val.i 1), ("content", Val.s "A")]] rfl rfl

/-- C7: the claim says every diagram carries a title (defaulting to a
placeholder) and that the listing returns records containing id, title
and content. The `Diagram` model (models.py lines 22-27) has no title
column and `get_diagrams` returns only id and content: listing alice's
diagrams yields a record with no "title" key at all. -/
theorem C7_counterexample :
    get_diagrams exDB "alice" = ApiResult.ok [[("id", Val.i 1), ("content", Val.s "A")]] ∧
    List.lookup "title" [("id", Val.i 1), ("content", Val.s "A")] = none := by
  exact ⟨rfl, rfl⟩

/-- C7 (amended): diagrams carry no title; the listing returns each of the
owner's diagrams as a record whose keys are exactly id and content
(no title key), holding that diagram's id and content. -/
theorem C7_record_fields (db : DB) (uname : String) (u : User) (l : List Record)
    (hu : findUser db uname = some u)
    (hl : get_diagrams db uname = ApiResult.ok l) :
    ∀ r ∈ l, r.map Prod.fst = ["id", "content"] ∧
      List.lookup "title" r = none ∧
      ∃ d ∈ db.diagrams, d.owner_id = u.id ∧ List.lookup "id" r = some (Val.i d.id) ∧ List.lookup "content" r = some (Val.s d.content) := by
  have hl' : l = (db.diagrams.filter (fun d => d.owner_id == u.id)).map (fun d => [("id", Val.i d.id), ("content", Val.s d.content)]) := by
    unfold get_diagrams at hl
    rw [hu] at hl
    exact (ApiResult.ok.inj hl).symm
  subst hl'
  intro r hr
  obtain ⟨d, hd, hdr⟩ := List.mem_map.mp hr
  obtain ⟨hdmem, hdown⟩ := List.mem_filter.mp hd
  subst hdr
  exact ⟨rfl, rfl, d, hdmem, by simpa using hdown, rfl, rfl⟩

/-- C7 witness: the record listed for alice has keys id and content only. -/
theorem C7_record_fields_witness :
    ([("id", Val.i 1), ("content", Val.s "A")] : Record).map Prod.fst = ["id", "content"] ∧
      List.lookup "title" [("id", Val.i 1), ("content", Val.s "A")] = none ∧
      ∃ d ∈ exDB.diagrams, d.owner_id = 1 ∧ List.lookup "id" [("id", Val.i 1), ("content", Val.s "A")] = some (Val.i d.id) ∧ List.lookup "content" [("id", Val.i 1), ("content", Val.s "A")] = some (Val.s d.content) :=
  C7_record_fields exDB "alice" ⟨1, "alice", "h1"⟩ [[("id", Val.i 1), ("content", Val.s "A")]] rfl rfl
    [("id", Val.i 1), ("content", Val.s "A")] (by decide)

/-- C8: the broadcast relay never delivers a message back to its own
sender: for every registry state, session key and sender handle, the
sender is not among the fan-out recipients of that relay call. -/
theorem C8_relay_no_echo (reg : List (String × List String)) (key sender : String) :
    sender ∉ relayRecipients reg key sender := by
  intro h
  rcases List.mem_filter.mp h with ⟨-, hne⟩
  simp at hne

/-- Rewriting the content of the first matching row changes the table at
exactly the first-match position and nowhere else. -/
theorem setContent_updatedOnlyAt (p : Diagram → Bool) (c : String)
    (l : List Diagram) {a : Diagram} (h : l.find? p = some a) :
    ∃ j, j < l.length ∧ l.getD j ⟨0, 0, ""⟩ = a ∧
      UpdatedOnlyAt l (setContent p c l) j c := by
  obtain ⟨j, hj, hja, hjf, hother⟩ :=
    updateFirst_spec p (fun x => { x with content := c }) l ⟨0, 0, ""⟩ h
  exact ⟨j, hj, hja, length_updateFirst _ _ _, hjf, hother⟩

/-- C9: a successful content update — by a save carrying an id, or by the
update endpoint — changes only that diagram's content field: the user
table is untouched, and the diagram table changes at exactly one
position, the one holding the targeted diagram (its id, and for the save
path its owner, match the request); that row keeps its id and owner and
only its content is replaced, and every other diagram in the store is
literally unchanged. -/
theorem C9_update_frame (db : DB) (uname c : String) (i : Nat) (u : User)
    (d : Diagram) (c' : String) (i' : Nat) (d' : Diagram)
    (hn : uname ≠ "") (hc : c ≠ "") (hi : i ≠ 0)
    (hu : findUser db uname = some u)
    (hd : findDiagramByIdOwner db i u.id = some d)
    (hc' : c' ≠ "") (hi' : i' ≠ 0)
    (hd' : findDiagramById db i' = some d') :
    ((save_diagram db ⟨some uname, some c, some i⟩).2.1.users = db.users ∧
      ∃ j, j < db.diagrams.length ∧
        (db.diagrams.getD j ⟨0, 0, ""⟩).id = i ∧
        (db.diagrams.getD j ⟨0, 0, ""⟩).owner_id = u.id ∧
        UpdatedOnlyAt db.diagrams (save_diagram db ⟨some uname, some c, some i⟩).2.1.diagrams j c) ∧
    ((update_diagram db ⟨some i', some c'⟩).2.users = db.users ∧
      ∃ j, j < db.diagrams.length ∧
        (db.diagrams.getD j ⟨0, 0, ""⟩).id = i' ∧
        UpdatedOnlyAt db.diagrams (update_diagram db ⟨some i', some c'⟩).2.diagrams j c') := by
  constructor
  · rw [save_diagram_update_eq db uname c i u d hn hc hi hu hd]
    refine ⟨rfl, ?_⟩
    have hfind : db.diagrams.find? (fun x => x.id == i && x.owner_id == u.id) = some d := hd
    obtain ⟨j, hj, hja, hupd⟩ := setContent_updatedOnlyAt
      (fun x => x.id == i && x.owner_id == u.id) c db.diagrams hfind
    have hpa := List.find?_some hfind
    simp only [Bool.and_eq_true, beq_iff_eq] at hpa
    exact ⟨j, hj, by rw [hja]; exact hpa.1, by rw [hja]; exact hpa.2, hupd⟩
  · rw [update_diagram_some_eq db c' i' d' hc' hi' hd']
    refine ⟨rfl, ?_⟩
    have hfind : db.diagrams.find? (fun x => x.id == i') = some d' := hd'
    obtain ⟨j, hj, hja, hupd⟩ := setContent_updatedOnlyAt
      (fun x => x.id == i') c' db.diagrams hfind
    have hpa := List.find?_some hfind
    exact ⟨j, hj, by rw [hja]; simpa using hpa, hupd⟩

/-- C9 witness: alice saving "Y" onto diagram 1 and an update request
writing "Z" onto diagram 1. -/
theorem C9_update_frame_witness :
    ((save_diagram exDB ⟨some "alice", some "Y", some 1⟩).2.1.users = exDB.users ∧
      ∃ j, j < exDB.diagrams.length ∧
        (exDB.diagrams.getD j ⟨0, 0, ""⟩).id = 1 ∧
        (exDB.diagrams.getD j ⟨0, 0, ""⟩).owner_id = 1 ∧
        UpdatedOnlyAt exDB.diagrams (save_diagram exDB ⟨some "alice", some "Y", some 1⟩).2.1.diagrams j "Y") ∧
    ((update_diagram exDB ⟨some 1, some "Z"⟩).2.users = exDB.users ∧
      ∃ j, j < exDB.diagrams.length ∧
        (exDB.diagrams.getD j ⟨0, 0, ""⟩).id = 1 ∧
        UpdatedOnlyAt exDB.diagrams (update_diagram exDB ⟨some 1, some "Z"⟩).2.diagrams j "Z") :=
  C9_update_frame exDB "alice" "Y" 1 ⟨1, "alice", "h1"⟩ ⟨1, 1, "A"⟩ "Z" 1 ⟨1, 1, "A"⟩
    (by decide) (by decide) (by decide) rfl rfl (by decide) (by decide) rfl

/-- One register call preserves uniqueness of usernames. -/
theorem register_preserves_nodup (db : DB) (q : AuthPayload)
    (h : (db.users.map User.username).Nodup) :
    (((register db q).2).users.map User.username).Nodup := by
  cases hv : (strTruthy q.username && strTruthy q.password) with
  | false => simpa [register, hv] using h
  | true =>
      cases hfu : findUser db (q.username.getD "") with
      | some x => simpa [register, hv, hfu] using h
      | none =>
          have hnotin : (q.username.getD "") ∉ db.users.map User.username := by
            intro hmem
            obtain ⟨v, hv2, hveq⟩ := List.mem_map.mp hmem
            exact (List.find?_eq_none.mp hfu v hv2) (by simp [hveq])
          simp only [register, hv, Bool.not_true, Bool.false_eq_true,
            if_false, hfu]
          rw [List.map_append, List.nodup_append]
          refine ⟨h, List.nodup_singleton _, ?_⟩
          intro a ha hb
          simp only [List.map_cons, List.map_nil, List.mem_singleton] at hb
          subst hb
          exact hnotin ha

/-- Any sequence of register calls preserves uniqueness of usernames. -/
theorem register_seq_preserves_nodup (db : DB) (ps : List AuthPayload)
    (h : (db.users.map User.username).Nodup) :
    (((ps.foldl (fun d q => (register d q).2) db).users.map User.username)).Nodup := by
  induction ps generalizing db with
  | nil => exact h
  | cons q qs ih => exact ih _ (register_preserves_nodup db q h)

/-- C10: when a user with the requested username already exists, register
fails with the "User already exists" error and the database is unchanged
(no user row is added); consequently, starting from a user table with
unique usernames, usernames remain unique after any sequence of register
calls. -/
theorem C10_register_unique (db : DB) (p : AuthPayload) :
    ((∃ u ∈ db.users, some u.username = p.username) →
      strTruthy p.username = true → strTruthy p.password = true →
      register db p = (ApiResult.error 400 "User already exists", db)) ∧
    (∀ ps : List AuthPayload, (db.users.map User.username).Nodup →
      (((ps.foldl (fun d q => (register d q).2) db).users.map User.username)).Nodup) := by
  constructor
  · rintro ⟨u0, hu0, hueq⟩ ht hp
    obtain ⟨ou, op⟩ := p
    cases ou with
    | none => simp [strTruthy] at ht
    | some s =>
        cases op with
        | none => simp [strTruthy] at hp
        | some pw =>
            have hs : s ≠ "" := by simpa [strTruthy] using ht
            have hpw : pw ≠ "" := by simpa [strTruthy] using hp
            have hus : u0.username = s := by simpa using hueq
            have hx : ∃ x, findUser db s = some x := by
              have hsome : (db.users.find? (fun v => v.username == s)).isSome :=
                List.find?_isSome.mpr ⟨u0, hu0, by simp [hus]⟩
              exact Option.isSome_iff_exists.mp hsome
            obtain ⟨x, hx⟩ := hx
            unfold register
            simp [strTruthy, hs, hpw, hx]
  · intro ps h
    exact register_seq_preserves_nodup db ps h

/-- C10 witness: re-registering "alice" fails and changes nothing;
registering "carol" then "alice" keeps usernames unique. -/
theorem C10_register_unique_witness :
    register exDB ⟨some "alice", some "pw"⟩ = (ApiResult.error 400 "User already exists", exDB) ∧
    ((([⟨some "carol", some "pw"⟩, ⟨some "alice", some "pw2"⟩] : List AuthPayload).foldl (fun d q => (register d q).2) exDB).users.map User.username).Nodup :=
  ⟨(C10_register_unique exDB ⟨some "alice", some "pw"⟩).1 ⟨⟨1, "alice", "h1"⟩, by decide, rfl⟩ rfl rfl,
   (C10_register_unique exDB ⟨some "carol", some "pw"⟩).2 [⟨some "carol", some "pw"⟩, ⟨some "alice", some "pw2"⟩] (by decide)⟩

end Whiteboard
